import Mathlib

/-!
# Verification of the address-book storage, controller and view logic

Shallow embedding of the repository's code:

* `model1.py` (`CarnetAdresses`): the SQLite-backed storage layer.  The
  `contacts` table is modelled as a list of `Contact` records together with
  the `AUTOINCREMENT` sequence counter `seq` (SQLite with `AUTOINCREMENT`
  hands out `max-ever-used + 1` and never reuses an id within a database
  lifetime).  Rows are kept in insertion (rowid) order, which is the order
  an unordered `SELECT` returns them in.  Python's `ValueError` is modelled
  by `Except.error`.  SQL `NULL` is `Option.none`.
* `controleur.py` (`Controller`): the regular-expression email validator and
  the Delete workflow.
* `view.py` (`ContactView`): the real-time email checker's acceptance rules.

Strings: SQLite's default `BINARY` collation compares UTF-8 bytes, and UTF-8
byte order coincides with code-point order, which is exactly the order of
Lean's `String` linear order, so `String` comparisons model `ORDER BY`
faithfully.  SQLite's `LOWER` and Python's `[a-zA-Z]` classes are
ASCII-only, exactly like `Char.toLower` / `Char.isAlpha`.
-/

deriving instance DecidableEq for Except

/-- One row of the `contacts` table:
`(id, nom, prenom, telephone, email, adresse)`.
`telephone`, `email`, `adresse` are nullable (`Option`). -/
structure Contact where
  id : Int
  nom : String
  prenom : String
  telephone : Option String
  email : Option String
  adresse : Option String
deriving DecidableEq

/-- The state of the storage layer: the `contacts` table in rowid order plus
the `AUTOINCREMENT` sequence (largest id ever assigned). -/
structure DB where
  rows : List Contact
  seq : Int
deriving DecidableEq

/-- A fresh database file: empty table, sequence at 0 (first id will be 1). -/
def initDb : DB := ⟨[], 0⟩

/-- Table invariant: the sequence counter is non-negative and every stored
id is at most the sequence counter.  This holds for every database
reachable from `initDb` (see the preservation lemmas below) and is what
`AUTOINCREMENT` guarantees. -/
def DB.Wf (db : DB) : Prop := 0 ≤ db.seq ∧ ∀ c ∈ db.rows, c.id ≤ db.seq

/-- Python's `str.strip()` on the character list: drop leading and
trailing whitespace. -/
def trimL (l : List Char) : List Char :=
  ((l.dropWhile Char.isWhitespace).reverse.dropWhile Char.isWhitespace).reverse

/-- Python's `str.strip()`. -/
def strTrim (s : String) : String := ⟨trimL s.data⟩

/-- Cleaning of an optional field in `ajouter_contact`/`modifier_contact`:
Python's `x.strip() if x else None` — an empty (falsy) string becomes
`NULL`, a present string is trimmed. -/
def cleanOpt : Option String → Option String
  | none => none
  | some s => if s = "" then none else some (strTrim s)

/-- `CarnetAdresses.ajouter_contact` (model1.py lines 179-290): validate the
mandatory fields, trim everything, `INSERT`, return `lastrowid`. -/
def ajouter_contact (db : DB) (nom prenom : String)
    (telephone email adresse : Option String) : Except String (Int × DB) :=
  if strTrim nom = "" then .error "Le nom est obligatoire"
  else if strTrim prenom = "" then .error "Le prénom est obligatoire"
  else
    let newId := db.seq + 1
    let c : Contact :=
      ⟨newId, strTrim nom, strTrim prenom, cleanOpt telephone, cleanOpt email,
        cleanOpt adresse⟩
    .ok (newId, ⟨db.rows ++ [c], newId⟩)

/-- `CarnetAdresses.obtenir_contact_par_id` (model1.py lines 636-720):
validate the id, `SELECT ... WHERE id = ?`, `fetchone`. -/
def obtenir_contact_par_id (db : DB) (contact_id : Int) :
    Except String (Option Contact) :=
  if contact_id ≤ 0 then .error "L'identifiant du contact est invalide"
  else .ok (db.rows.find? (fun c => c.id == contact_id))

/-- `CarnetAdresses.modifier_contact` (model1.py lines 393-487): validate,
trim, `UPDATE ... SET all fields WHERE id = ?`, return `rowcount > 0`. -/
def modifier_contact (db : DB) (contact_id : Int) (nom prenom : String)
    (telephone email adresse : Option String) : Except String (Bool × DB) :=
  if contact_id ≤ 0 then .error "L'identifiant du contact est invalide"
  else if strTrim nom = "" then .error "Le nom est obligatoire"
  else if strTrim prenom = "" then .error "Le prénom est obligatoire"
  else
    let u : Contact :=
      ⟨contact_id, strTrim nom, strTrim prenom, cleanOpt telephone,
        cleanOpt email, cleanOpt adresse⟩
    let n := db.rows.countP (fun c => c.id == contact_id)
    .ok (decide (0 < n),
      ⟨db.rows.map (fun c => if c.id == contact_id then u else c), db.seq⟩)

/-- `CarnetAdresses.supprimer_contact` (model1.py lines 492-562): validate,
`DELETE ... WHERE id = ?`, return `rowcount > 0`. -/
def supprimer_contact (db : DB) (contact_id : Int) :
    Except String (Bool × DB) :=
  if contact_id ≤ 0 then .error "L'identifiant du contact est invalide"
  else
    let n := db.rows.countP (fun c => c.id == contact_id)
    .ok (decide (0 < n),
      ⟨db.rows.filter (fun c => !(c.id == contact_id)), db.seq⟩)

/-- Strict code-point lexicographic order on character lists: the
comparison SQLite's default `BINARY` collation performs on TEXT values
(UTF-8 byte order coincides with code-point order). -/
def listLtB : List Char → List Char → Bool
  | _, [] => false
  | [], _ :: _ => true
  | a :: as, b :: bs =>
    decide (a.toNat < b.toNat) || (a == b && listLtB as bs)

/-- Reflexive code-point lexicographic order on character lists. -/
def listLeB : List Char → List Char → Bool
  | [], _ => true
  | _ :: _, [] => false
  | a :: as, b :: bs =>
    decide (a.toNat < b.toNat) || (a == b && listLeB as bs)

/-- The `ORDER BY nom, prenom` comparison: last name first (strictly
smaller), first name as tie-break, under the store's default
case-sensitive (`BINARY`) string order. -/
def contactLeB (a b : Contact) : Bool :=
  listLtB a.nom.data b.nom.data ||
    (a.nom == b.nom && listLeB a.prenom.data b.prenom.data)

/-- `contactLeB` as a relation, for `List.Sorted`. -/
def contactLe (a b : Contact) : Prop := contactLeB a b = true

instance : DecidableRel contactLe := fun a b =>
  inferInstanceAs (Decidable (contactLeB a b = true))

/-- The `ORDER BY nom, prenom` clause, as a sort of the selected rows. -/
def sortContacts (l : List Contact) : List Contact :=
  List.insertionSort contactLe l

/-- `CarnetAdresses.afficher_tous` (model1.py lines 567-631):
`SELECT * FROM contacts ORDER BY nom, prenom`. -/
def afficher_tous (db : DB) : List Contact := sortContacts db.rows

/-- SQLite's ASCII-only `LOWER`, applied character-wise (`Char.toLower` is
likewise ASCII-only). -/
def lowerL (l : List Char) : List Char := l.map Char.toLower

/-- SQL `LIKE` pattern matching: `%` matches any sequence, `_` any single
character, anything else itself.  The engine's additional ASCII case
folding is a no-op here because `rechercher_contact` applies `LOWER` to
both operands, so plain character equality is used. -/
def likeMatch : List Char → List Char → Bool
  | [], s => s.isEmpty
  | a :: ps, s =>
    if a = '%' then
      s.tails.any (fun t => likeMatch ps t)
    else
      match s with
      | [] => false
      | c :: s' =>
        if a = '_' then likeMatch ps s'
        else (a == c) && likeMatch ps s'

/-- `LOWER(field) LIKE LOWER(pattern)` on a nullable column: `NULL` never
matches (`NULL LIKE x` is `NULL`, which is not selected by `WHERE`). -/
def fieldLike (pat : List Char) : Option String → Bool
  | none => false
  | some s => likeMatch (lowerL pat) (lowerL s.data)

/-- `CarnetAdresses.rechercher_contact` (model1.py lines 295-388): validate
the criterion, build the pattern `"%critere%"` and run
`SELECT ... WHERE LOWER(nom) LIKE LOWER(?) OR LOWER(telephone) LIKE LOWER(?)
OR LOWER(email) LIKE LOWER(?) ORDER BY nom, prenom`. -/
def rechercher_contact (db : DB) (critere : String) :
    Except String (List Contact) :=
  if strTrim critere = "" then
    .error "Le critère de recherche est obligatoire"
  else
    let pat := '%' :: ((strTrim critere).data ++ ['%'])
    .ok (sortContacts (db.rows.filter (fun c =>
      likeMatch (lowerL pat) (lowerL c.nom.data) ||
      fieldLike pat c.telephone || fieldLike pat c.email)))

/-! ## The Controller's email validator (controleur.py lines 165-182)

`valider_email` accepts the empty string, otherwise runs
`re.match(r'^[a-zA-Z0-9._%+-]+@[a-zA-Z0-9.-]+\.[a-zA-Z]{2,}$', email)`.
Because none of the three character classes contains `@`, the regex's `@`
can only be the first `@` of the string; because `[a-zA-Z]` does not
contain `.`, the regex's `\.` can only be the last `.` after that `@`.
The matcher below exploits this determinism.  Python's `$` anchor also
matches just before a single newline at the very end of the string, which
`valider_email` reproduces. -/

/-- The class `[a-zA-Z0-9._%+-]` of the local part. -/
def isLocalChar (c : Char) : Bool :=
  c.isAlpha || c.isDigit || c == '.' || c == '_' || c == '%' || c == '+'
    || c == '-'

/-- The class `[a-zA-Z0-9.-]` of the domain part. -/
def isDomainChar (c : Char) : Bool :=
  c.isAlpha || c.isDigit || c == '.' || c == '-'

/-- Anchored match of `[a-zA-Z0-9._%+-]+@[a-zA-Z0-9.-]+\.[a-zA-Z]{2,}`
against a whole character list. -/
def matchEmailCore (l : List Char) : Bool :=
  let loc := l.takeWhile (fun c => !(c == '@'))
  match l.dropWhile (fun c => !(c == '@')) with
  | [] => false
  | _ :: m =>
    let tRev := m.reverse.takeWhile (fun c => !(c == '.'))
    match m.reverse.dropWhile (fun c => !(c == '.')) with
    | [] => false
    | _ :: dRev =>
      !loc.isEmpty && loc.all isLocalChar &&
      !dRev.isEmpty && dRev.all isDomainChar &&
      decide (2 ≤ tRev.length) && tRev.all Char.isAlpha

/-- `Controller.valider_email`: empty email is valid; otherwise the regex
must match, where the `$` anchor also accepts one trailing newline
(Python `re` semantics of `$` without `re.MULTILINE`). -/
def valider_email (email : String) : Bool :=
  if email = "" then true
  else
    matchEmailCore email.data ||
      (match email.data.getLast? with
       | some c => (c == '\n') && matchEmailCore email.data.dropLast
       | none => false)

/-! ## The View's real-time email checker (view.py lines 158-196) -/

/-- Outcome of `ContactView._valider_email_temps_reel`: no marking for an
empty field, a red warning, or the green "Format valide" marking. -/
inductive Verdict where
  | neutre : Verdict
  | invalide : Verdict
  | valide : Verdict
deriving DecidableEq

/-- The characters the View forbids in an email. -/
def viewForbidden : List Char := [' ', ',', ';', ':', '!', '?']

/-- Acceptance logic of `ContactView._valider_email_temps_reel`, applied to
the stripped text of the email entry, checks in source order: `@` present,
non-empty local part, a dot after the first `@`, final segment of length at
least 2, no forbidden character anywhere. -/
def valider_email_temps_reel (email : String) : Verdict :=
  let l := email.data
  if l.isEmpty then .neutre
  else if !(l.contains '@') then .invalide
  else
    let locale := l.takeWhile (fun c => !(c == '@'))
    let reste := (l.dropWhile (fun c => !(c == '@'))).drop 1
    if locale.isEmpty then .invalide
    else if !(reste.contains '.') then .invalide
    else if (reste.reverse.takeWhile (fun c => !(c == '.'))).length < 2 then
      .invalide
    else if viewForbidden.any (fun c => l.contains c) then .invalide
    else .valide

/-! ## The Controller's Delete workflow (controleur.py lines 291-321)

`Controller.supprimer_contact` reads the selection from the view, fetches
the record for the confirmation prompt, asks the user, and only on a
positive answer calls the storage delete.  The view interactions are
modelled by the `selection` and `confirmation` parameters; the result is
the database together with a flag recording whether the storage delete was
invoked.  `none` models an uncaught Python exception (a `ValueError` from
the storage layer, or the `TypeError` of `contact[1]` when the fetch
returned no row); in those cases the delete statement was never reached. -/
def controleurSupprimer (db : DB) (selection : Option Int)
    (confirmation : Bool) : Option (DB × Bool) :=
  match selection with
  | none => some (db, false)
  | some contact_id =>
    match obtenir_contact_par_id db contact_id with
    | .error _ => none
    | .ok none => none
    | .ok (some _) =>
      if confirmation then
        match supprimer_contact db contact_id with
        | .error _ => none
        | .ok (_, db') => some (db', true)
      else some (db, false)

/-! ## Operation traces (for the id-freshness claim) -/

/-- One storage operation, as invoked through the public interface. -/
inductive Op where
  | add (nom prenom : String) (telephone email adresse : Option String) : Op
  | upd (contact_id : Int) (nom prenom : String)
      (telephone email adresse : Option String) : Op
  | del (contact_id : Int) : Op

/-- Run one operation; a raised `ValueError` leaves the table untouched.
The second component is the id returned by a successful create. -/
def applyOp (db : DB) : Op → DB × Option Int
  | .add nom prenom t e a =>
    match ajouter_contact db nom prenom t e a with
    | .ok (i, db') => (db', some i)
    | .error _ => (db, none)
  | .upd i nom prenom t e a =>
    match modifier_contact db i nom prenom t e a with
    | .ok (_, db') => (db', none)
    | .error _ => (db, none)
  | .del i =>
    match supprimer_contact db i with
    | .ok (_, db') => (db', none)
    | .error _ => (db, none)

/-- Run a whole session; returns the final database and the ids returned by
the successful creates, in order. -/
def run (db : DB) : List Op → DB × List Int
  | [] => (db, [])
  | op :: ops =>
    let r := applyOp db op
    let rest := run r.1 ops
    (rest.1, r.2.toList ++ rest.2)

/-! ## Spec-side definitions (for refinement comparisons) -/

/-- Boolean substring test: `q` occurs contiguously inside `s`. -/
def isSubstring (q s : List Char) : Bool :=
  s.tails.any (fun t => q.isPrefixOf t)

/-- The spec's description of `find`: the (trimmed) query is a
case-insensitive substring of the last name, the phone or the email
(`OR` across the three; an absent field never matches). -/
def specMatches (q : String) (c : Contact) : Bool :=
  let ql := lowerL q.data
  isSubstring ql (lowerL c.nom.data) ||
  (match c.telephone with
   | some t => isSubstring ql (lowerL t.data)
   | none => false) ||
  (match c.email with
   | some e => isSubstring ql (lowerL e.data)
   | none => false)

/-- The spec's wording of a syntactically valid non-empty email:
`localpart@domain.tld` with a non-empty local part over `[A-Za-z0-9._%+-]`,
a non-empty domain over `[A-Za-z0-9.-]`, and a final segment after the last
dot of 2+ alphabetic characters (the exhibited dot is automatically the
last one since the final segment contains no dot). -/
def specEmailOk (s : String) : Prop :=
  ∃ loc d t : List Char,
    s.data = loc ++ '@' :: (d ++ '.' :: t) ∧
    loc ≠ [] ∧ loc.all isLocalChar = true ∧
    d ≠ [] ∧ d.all isDomainChar = true ∧
    2 ≤ t.length ∧ t.all Char.isAlpha = true

/-! ## Concrete example data used by the closed statements -/

/-- A one-row table for the round-trip statements. -/
def ligneDupont : Contact := ⟨1, "Dupont", "Jean", none, none, none⟩

/-- The table holding just `ligneDupont`. -/
def tableDupont : DB := ⟨[ligneDupont], 1⟩

/-- A two-row table with phones and emails, for the wildcard statements. -/
def tableJoker : DB :=
  ⟨[⟨1, "Dupont", "Jean", some "0102030405", some "jean@ex.fr", none⟩,
    ⟨2, "Martin", "Alice", some "0607080910", some "alice@ex.fr", none⟩], 2⟩

/-- A one-row table for the literal-search statements. -/
def tableRecherche : DB :=
  ⟨[⟨1, "Durand", "Paul", some "0499", some "paul@ex.fr", none⟩], 1⟩

/-! ## The display order is total and transitive -/

/-- `Char.toNat` is injective. -/
lemma char_toNat_inj {a b : Char} (h : a.toNat = b.toNat) : a = b :=
  Char.eq_of_val_eq (UInt32.toNat.inj h)

/-- Two strings with the same character data are equal. -/
lemma string_data_inj {s t : String} (h : s.data = t.data) : s = t := by
  cases s; cases t; exact congrArg String.mk h

/-- Trichotomy for the strict code-point order. -/
lemma listLtB_trichotomie : ∀ a b : List Char,
    listLtB a b = true ∨ listLtB b a = true ∨ a = b
  | [], [] => Or.inr (Or.inr rfl)
  | [], _ :: _ => Or.inl rfl
  | _ :: _, [] => Or.inr (Or.inl rfl)
  | a :: as, b :: bs => by
    rcases Nat.lt_trichotomy a.toNat b.toNat with h | h | h
    · left; simp [listLtB, h]
    · have hab : a = b := char_toNat_inj h
      subst hab
      rcases listLtB_trichotomie as bs with h1 | h1 | h1
      · left; simp [listLtB, h1]
      · right; left; simp [listLtB, h1]
      · right; right; rw [h1]
    · right; left; simp [listLtB, h]

/-- The reflexive code-point order is total. -/
lemma listLeB_total : ∀ a b : List Char,
    listLeB a b = true ∨ listLeB b a = true
  | [], _ => Or.inl rfl
  | _ :: _, [] => Or.inr rfl
  | a :: as, b :: bs => by
    rcases Nat.lt_trichotomy a.toNat b.toNat with h | h | h
    · left; simp [listLeB, h]
    · have hab : a = b := char_toNat_inj h
      subst hab
      rcases listLeB_total as bs with h1 | h1
      · left; simp [listLeB, h1]
      · right; simp [listLeB, h1]
    · right; simp [listLeB, h]

/-- The strict code-point order is transitive. -/
lemma listLtB_trans : ∀ a b c : List Char,
    listLtB a b = true → listLtB b c = true → listLtB a c = true
  | _, [], _ => by intro h1 _; simp [listLtB] at h1
  | _, _ :: _, [] => by intro _ h2; simp [listLtB] at h2
  | [], _ :: _, _ :: _ => by intro _ _; rfl
  | a :: as, b :: bs, c :: cs => by
    intro h1 h2
    simp only [listLtB, Bool.or_eq_true, decide_eq_true_eq,
      Bool.and_eq_true, beq_iff_eq] at h1 h2 ⊢
    rcases h1 with h1 | ⟨rfl, h1⟩
    · rcases h2 with h2 | ⟨rfl, _⟩
      · exact Or.inl (h1.trans h2)
      · exact Or.inl h1
    · rcases h2 with h2 | ⟨rfl, h2⟩
      · exact Or.inl h2
      · exact Or.inr ⟨rfl, listLtB_trans as bs cs h1 h2⟩

/-- The reflexive code-point order is transitive. -/
lemma listLeB_trans : ∀ a b c : List Char,
    listLeB a b = true → listLeB b c = true → listLeB a c = true
  | [], _, _ => by intro _ _; rfl
  | _ :: _, [], _ => by intro h1 _; simp [listLeB] at h1
  | _ :: _, _ :: _, [] => by intro _ h2; simp [listLeB] at h2
  | a :: as, b :: bs, c :: cs => by
    intro h1 h2
    simp only [listLeB, Bool.or_eq_true, decide_eq_true_eq,
      Bool.and_eq_true, beq_iff_eq] at h1 h2 ⊢
    rcases h1 with h1 | ⟨rfl, h1⟩
    · rcases h2 with h2 | ⟨rfl, _⟩
      · exact Or.inl (h1.trans h2)
      · exact Or.inl h1
    · rcases h2 with h2 | ⟨rfl, h2⟩
      · exact Or.inl h2
      · exact Or.inr ⟨rfl, listLeB_trans as bs cs h1 h2⟩

instance : IsTotal Contact contactLe := by
  constructor
  intro a b
  unfold contactLe contactLeB
  rcases listLtB_trichotomie a.nom.data b.nom.data with h | h | h
  · left; simp [h]
  · right; simp [h]
  · have hn : a.nom = b.nom := string_data_inj h
    rcases listLeB_total a.prenom.data b.prenom.data with h1 | h1
    · left; simp [hn, h1]
    · right; simp [hn, h1]

instance : IsTrans Contact contactLe := by
  constructor
  intro a b c hab hbc
  unfold contactLe contactLeB at hab hbc ⊢
  simp only [Bool.or_eq_true, Bool.and_eq_true, beq_iff_eq] at hab hbc ⊢
  rcases hab with h1 | ⟨e1, p1⟩
  · rcases hbc with h2 | ⟨e2, _⟩
    · exact Or.inl (listLtB_trans _ _ _ h1 h2)
    · exact Or.inl (e2 ▸ h1)
  · rcases hbc with h2 | ⟨e2, p2⟩
    · exact Or.inl (e1 ▸ h2)
    · exact Or.inr ⟨e1.trans e2, listLeB_trans _ _ _ p1 p2⟩

/-! ## General lemmas about the storage operations -/

/-- When no optional field is passed as the (falsy) empty string, the
cleaning of `ajouter_contact`/`modifier_contact` is plain trimming. -/
lemma cleanOpt_eq_map_trim {o : Option String} (h : o ≠ some "") :
    cleanOpt o = o.map strTrim := by
  cases o with
  | none => rfl
  | some s =>
    have hs : ¬ s = "" := fun he => h (by rw [he])
    simp [cleanOpt, hs]

/-- `SELECT ... WHERE id = ?` on the table after an `UPDATE` of that id
finds the updated row, as soon as some row carried the id. -/
lemma find?_map_update (rows : List Contact) (i : Int) (u : Contact)
    (hu : u.id = i) (h : ∃ c ∈ rows, c.id = i) :
    (rows.map (fun c => if c.id == i then u else c)).find?
      (fun c => c.id == i) = some u := by
  induction rows with
  | nil => simp at h
  | cons a rows ih =>
    rw [List.map_cons]
    by_cases ha : a.id = i
    · have h1 : (if a.id == i then u else a) = u := by simp [ha]
      rw [h1]
      exact List.find?_cons_of_pos _ (by simp [hu])
    · have h1 : (if a.id == i then u else a) = a := by simp [ha]
      rw [h1, List.find?_cons_of_neg _ (by simp [ha])]
      apply ih
      obtain ⟨c, hc, hci⟩ := h
      rcases List.mem_cons.1 hc with rfl | hc'
      · exact absurd hci ha
      · exact ⟨c, hc', hci⟩

/-! ## C6 — `afficher_tous` lists every record, ordered by (nom, prenom) -/

/-- C6: for every table state (hence for every state reachable by any
sequence of create/update/delete operations), `afficher_tous` returns a
permutation of the whole table, sorted by (`nom`, `prenom`) ascending
under the store's default case-sensitive string ordering. -/
theorem afficher_tous_trie (db : DB) :
    List.Sorted contactLe (afficher_tous db) ∧
      List.Perm (afficher_tous db) db.rows :=
  ⟨List.sorted_insertionSort contactLe db.rows,
   List.perm_insertionSort contactLe db.rows⟩

/-! ## C8 — the two email validators disagree somewhere -/

/-- C8: the View's real-time email checker and the Controller's
regular-expression validator do not agree on all inputs: `"a#b@c.de"` is
non-empty, the View marks it as valid (it never inspects the characters of
the local part) while the Controller rejects it (`#` is outside
`[a-zA-Z0-9._%+-]`). -/
theorem validateurs_email_divergent :
    ∃ s : String, s ≠ "" ∧
      valider_email_temps_reel s = Verdict.valide ∧ valider_email s = false :=
  ⟨"a#b@c.de", by decide, by decide, by decide⟩

/-! ## C10 — `%` and `_` act as LIKE wildcards in `rechercher_contact` -/

/-- C10: the query is embedded unescaped in the pattern `"%query%"`, so
`%` and `_` are interpreted as SQL `LIKE` wildcards: on `tableJoker` the
searches `"%"` and `"_"` both return every record, although neither `%`
nor `_` is a literal (case-insensitive) substring of any field of any
record — `rechercher_contact` is not literal substring matching for
queries containing these characters. -/
theorem recherche_joker :
    rechercher_contact tableJoker "%" = .ok tableJoker.rows ∧
    rechercher_contact tableJoker "_" = .ok tableJoker.rows ∧
    ∀ c ∈ tableJoker.rows,
      specMatches "%" c = false ∧ specMatches "_" c = false := by
  refine ⟨by decide, by decide, by decide⟩

/-! ## C9 — declining the delete confirmation has no effect -/

/-- C9: in the Controller's Delete workflow, when a contact is selected
(the fetch for the confirmation prompt returns a row) and the user
declines the confirmation, the workflow ends with the table unchanged and
the storage delete never invoked (the `Bool` flag records whether
`supprimer_contact` was called). -/
theorem suppression_refusee_sans_effet (db : DB) (contact_id : Int)
    (c : Contact)
    (hfetch : obtenir_contact_par_id db contact_id = .ok (some c)) :
    controleurSupprimer db (some contact_id) false = some (db, false) := by
  simp only [controleurSupprimer]
  rw [hfetch]
  simp

/-- Witness for C9 at a concrete table, selection and answer. -/
theorem suppression_refusee_sans_effet_temoin :
    controleurSupprimer tableDupont (some 1) false = some (tableDupont, false) :=
  suppression_refusee_sans_effet tableDupont 1 ligneDupont (by decide)

/-! ## C3 — delete: `false` on a missing id, removal on a present id -/

/-- C3: for every positive id, `supprimer_contact` returns `false` (and
leaves the table unchanged) when no row carries the id, and returns
`true` after removing the row when one does, after which
`obtenir_contact_par_id` on that id returns `none`. -/
theorem suppression_contact (db : DB) (contact_id : Int)
    (hid : 0 < contact_id) :
    ((∀ c ∈ db.rows, c.id ≠ contact_id) →
        supprimer_contact db contact_id = .ok (false, db)) ∧
    ((∃ c ∈ db.rows, c.id = contact_id) →
        ∃ db', supprimer_contact db contact_id = .ok (true, db') ∧
          obtenir_contact_par_id db' contact_id = .ok none) := by
  have hle : ¬ contact_id ≤ 0 := by omega
  constructor
  · intro h
    have hcount : db.rows.countP (fun c => c.id == contact_id) = 0 := by
      rw [List.countP_eq_zero]
      intro c hc
      simp [h c hc]
    have hfilter : db.rows.filter (fun c => !(c.id == contact_id)) = db.rows := by
      rw [List.filter_eq_self]
      intro c hc
      simp [h c hc]
    simp [supprimer_contact, hle, hcount, hfilter]
  · intro h
    refine ⟨⟨db.rows.filter (fun c => !(c.id == contact_id)), db.seq⟩, ?_, ?_⟩
    · have hcount : 0 < db.rows.countP (fun c => c.id == contact_id) := by
        rw [List.countP_pos_iff]
        obtain ⟨c, hc, hci⟩ := h
        exact ⟨c, hc, by simp [hci]⟩
      simp [supprimer_contact, hle, hcount]
    · rw [obtenir_contact_par_id, if_neg hle]
      have hnone : (db.rows.filter (fun c => !(c.id == contact_id))).find?
          (fun c => c.id == contact_id) = none := by
        rw [List.find?_eq_none]
        intro x hx
        have h2 := (List.mem_filter.1 hx).2
        simpa using h2
      rw [hnone]

/-- Witness for C3 on a concrete table and id, both branches. -/
theorem suppression_contact_temoin :
    supprimer_contact tableDupont 2 = .ok (false, tableDupont) ∧
      ∃ db', supprimer_contact tableDupont 1 = .ok (true, db') ∧
        obtenir_contact_par_id db' 1 = .ok none :=
  ⟨(suppression_contact tableDupont 2 (by decide)).1 (by decide),
   (suppression_contact tableDupont 1 (by decide)).2 ⟨ligneDupont, by decide, by decide⟩⟩

/-! ## C2 — update: `false` on a missing id, full replacement on a hit -/

/-- C2: for every positive id and mandatory fields that are non-empty
after trimming, `modifier_contact` returns `false` and leaves the table
unchanged when no row carries the id; when a row carries the id it
returns `true` and a subsequent `obtenir_contact_par_id` yields exactly
the new (trimmed/cleaned) field values — a full replacement of all
mutable fields, not a merge. -/
theorem modification_contact (db : DB) (contact_id : Int)
    (nom prenom : String) (telephone email adresse : Option String)
    (hid : 0 < contact_id)
    (hn : strTrim nom ≠ "") (hp : strTrim prenom ≠ "") :
    ((∀ c ∈ db.rows, c.id ≠ contact_id) →
        modifier_contact db contact_id nom prenom telephone email adresse =
          .ok (false, db)) ∧
    ((∃ c ∈ db.rows, c.id = contact_id) →
        ∃ db',
          modifier_contact db contact_id nom prenom telephone email adresse =
            .ok (true, db') ∧
          obtenir_contact_par_id db' contact_id =
            .ok (some ⟨contact_id, strTrim nom, strTrim prenom,
              cleanOpt telephone, cleanOpt email, cleanOpt adresse⟩)) := by
  have hle : ¬ contact_id ≤ 0 := by omega
  constructor
  · intro h
    have hcount : db.rows.countP (fun c => c.id == contact_id) = 0 := by
      rw [List.countP_eq_zero]
      intro c hc
      simp [h c hc]
    have hmap : db.rows.map (fun c =>
        if c.id = contact_id then
          ⟨contact_id, strTrim nom, strTrim prenom, cleanOpt telephone,
            cleanOpt email, cleanOpt adresse⟩
        else c) = db.rows := by
      have h1 : db.rows.map (fun c =>
          if c.id = contact_id then
            (⟨contact_id, strTrim nom, strTrim prenom, cleanOpt telephone,
              cleanOpt email, cleanOpt adresse⟩ : Contact)
          else c) = db.rows.map id :=
        List.map_congr_left (fun c hc => by simp [h c hc])
      rw [h1, List.map_id]
    simp [modifier_contact, hle, hn, hp, hcount, hmap]
  · intro h
    refine ⟨⟨db.rows.map (fun c =>
      if c.id == contact_id then
        ⟨contact_id, strTrim nom, strTrim prenom, cleanOpt telephone,
          cleanOpt email, cleanOpt adresse⟩
      else c), db.seq⟩, ?_, ?_⟩
    · have hcount : 0 < db.rows.countP (fun c => c.id == contact_id) := by
        rw [List.countP_pos_iff]
        obtain ⟨c, hc, hci⟩ := h
        exact ⟨c, hc, by simp [hci]⟩
      simp [modifier_contact, hle, hn, hp, hcount]
    · rw [obtenir_contact_par_id, if_neg hle]
      rw [find?_map_update db.rows contact_id _ rfl h]

/-- Witness for C2 on a concrete table and id, both branches. -/
theorem modification_contact_temoin :
    modifier_contact tableDupont 2 "Durand" "Paul" none none none =
      .ok (false, tableDupont) ∧
    ∃ db', modifier_contact tableDupont 1 "Durand" "Paul" none none none =
        .ok (true, db') ∧
      obtenir_contact_par_id db' 1 =
        .ok (some ⟨1, strTrim "Durand", strTrim "Paul",
          cleanOpt none, cleanOpt none, cleanOpt none⟩) :=
  ⟨(modification_contact tableDupont 2 "Durand" "Paul" none none none
      (by decide) (by decide) (by decide)).1 (by decide),
   (modification_contact tableDupont 1 "Durand" "Paul" none none none
      (by decide) (by decide) (by decide)).2 ⟨ligneDupont, by decide, by decide⟩⟩

/-! ## C1 — create followed by get_by_id round-trips -/

/-- C1 (amended): on a well-formed table, for mandatory fields that are
non-empty after trimming and optional fields that are not the (falsy)
empty string, `ajouter_contact` succeeds and an immediately subsequent
`obtenir_contact_par_id` on the returned id yields the inserted fields
with leading/trailing whitespace trimmed.  (An optional field passed as
the empty string is stored as absent, not as the trimmed empty string —
see the counterexample.) -/
theorem ajout_puis_lecture (db : DB) (hwf : db.Wf) (nom prenom : String)
    (telephone email adresse : Option String)
    (hn : strTrim nom ≠ "") (hp : strTrim prenom ≠ "")
    (ht : telephone ≠ some "") (he : email ≠ some "") (ha : adresse ≠ some "") :
    ∃ i db',
      ajouter_contact db nom prenom telephone email adresse = .ok (i, db') ∧
      obtenir_contact_par_id db' i =
        .ok (some ⟨i, strTrim nom, strTrim prenom, telephone.map strTrim,
          email.map strTrim, adresse.map strTrim⟩) := by
  obtain ⟨h0, hids⟩ := hwf
  have hle : ¬ db.seq + 1 ≤ 0 := by omega
  refine ⟨db.seq + 1, ⟨db.rows ++ [⟨db.seq + 1, strTrim nom, strTrim prenom,
    cleanOpt telephone, cleanOpt email, cleanOpt adresse⟩], db.seq + 1⟩,
    ?_, ?_⟩
  · simp [ajouter_contact, hn, hp]
  · rw [obtenir_contact_par_id, if_neg hle, List.find?_append]
    have h1 : db.rows.find? (fun c => c.id == db.seq + 1) = none := by
      rw [List.find?_eq_none]
      intro x hx
      have := hids x hx
      simp
      omega
    rw [h1]
    simp [List.find?, cleanOpt_eq_map_trim ht, cleanOpt_eq_map_trim he,
      cleanOpt_eq_map_trim ha]

/-- Witness for C1 at a concrete table and inputs. -/
theorem ajout_puis_lecture_temoin :
    ∃ i db',
      ajouter_contact initDb " Dupont " "Jean" none (some " j@ex.fr ") none =
        .ok (i, db') ∧
      obtenir_contact_par_id db' i =
        .ok (some ⟨i, strTrim " Dupont ", strTrim "Jean",
          Option.map strTrim none, Option.map strTrim (some " j@ex.fr "),
          Option.map strTrim none⟩) :=
  ajout_puis_lecture initDb ⟨by decide, by simp [initDb]⟩ " Dupont " "Jean"
    none (some " j@ex.fr ") none (by decide) (by decide)
    (by simp) (by simp) (by simp)

/-- Counterexample to C1 as stated: an optional field inserted as the
empty string is read back as absent (`none`), not as the trimmed empty
string (`some ""`), so the record returned by `obtenir_contact_par_id` is
not field-for-field the trimmed inserted record. -/
theorem ajout_puis_lecture_contre_exemple :
    ajouter_contact initDb "Dupont" "Jean" (some "") none none =
      .ok (1, ⟨[⟨1, "Dupont", "Jean", none, none, none⟩], 1⟩) ∧
    obtenir_contact_par_id ⟨[⟨1, "Dupont", "Jean", none, none, none⟩], 1⟩ 1 =
      .ok (some ⟨1, "Dupont", "Jean", none, none, none⟩) ∧
    (some "").map strTrim ≠ (none : Option String) := by
  refine ⟨by decide, by decide, by decide⟩

/-! ## C5 — created ids are positive, strictly increasing, never reused -/

/-- `ajouter_contact` either rejects, or appends one row carrying the
fresh id `seq + 1` and advances the sequence to it. -/
lemma ajouter_shape (db : DB) (nom prenom : String)
    (t e a : Option String) :
    (∃ m, ajouter_contact db nom prenom t e a = .error m) ∨
      ajouter_contact db nom prenom t e a =
        .ok (db.seq + 1, ⟨db.rows ++
          [⟨db.seq + 1, strTrim nom, strTrim prenom, cleanOpt t, cleanOpt e,
            cleanOpt a⟩], db.seq + 1⟩) := by
  unfold ajouter_contact
  split_ifs
  · exact Or.inl ⟨_, rfl⟩
  · exact Or.inl ⟨_, rfl⟩
  · exact Or.inr rfl

/-- `modifier_contact` either rejects, or keeps the sequence and maps the
rows to rows with the same ids. -/
lemma modifier_shape (db : DB) (i : Int) (nom prenom : String)
    (t e a : Option String) :
    (∃ m, modifier_contact db i nom prenom t e a = .error m) ∨
      ∃ b rows, modifier_contact db i nom prenom t e a = .ok (b, ⟨rows, db.seq⟩) ∧
        ∀ c ∈ rows, ∃ c₀ ∈ db.rows, c.id = c₀.id := by
  unfold modifier_contact
  split_ifs
  · exact Or.inl ⟨_, rfl⟩
  · exact Or.inl ⟨_, rfl⟩
  · exact Or.inl ⟨_, rfl⟩
  · refine Or.inr ⟨_, _, rfl, ?_⟩
    intro c hc
    obtain ⟨c₀, hc₀, hfc⟩ := List.mem_map.1 hc
    refine ⟨c₀, hc₀, ?_⟩
    subst hfc
    by_cases hcid : c₀.id = i
    · simp [hcid]
    · simp [hcid]

/-- `supprimer_contact` either rejects, or keeps the sequence and keeps a
sublist of the rows. -/
lemma supprimer_shape (db : DB) (i : Int) :
    (∃ m, supprimer_contact db i = .error m) ∨
      ∃ b rows, supprimer_contact db i = .ok (b, ⟨rows, db.seq⟩) ∧
        ∀ c ∈ rows, c ∈ db.rows := by
  unfold supprimer_contact
  split_ifs
  · exact Or.inl ⟨_, rfl⟩
  · refine Or.inr ⟨_, _, rfl, ?_⟩
    intro c hc
    exact (List.mem_filter.1 hc).1

/-- One operation preserves well-formedness, never decreases the
sequence, and a returned create id is the fresh `seq + 1`, to which the
sequence advances. -/
lemma applyOp_spec (db : DB) (op : Op) (hwf : db.Wf) :
    (applyOp db op).1.Wf ∧ db.seq ≤ (applyOp db op).1.seq ∧
      ∀ i, (applyOp db op).2 = some i →
        i = db.seq + 1 ∧ (applyOp db op).1.seq = i := by
  obtain ⟨h0, hids⟩ := hwf
  cases op with
  | add nom prenom t e a =>
    rcases ajouter_shape db nom prenom t e a with ⟨m, hm⟩ | hok
    · simp only [applyOp, hm]
      exact ⟨⟨h0, hids⟩, le_refl _, fun i h => by cases h⟩
    · simp only [applyOp, hok]
      refine ⟨⟨?_, ?_⟩, ?_, ?_⟩
      · show (0 : Int) ≤ db.seq + 1
        omega
      · intro c hc
        show c.id ≤ db.seq + 1
        have hc' : c ∈ db.rows ++
            [(⟨db.seq + 1, strTrim nom, strTrim prenom, cleanOpt t,
              cleanOpt e, cleanOpt a⟩ : Contact)] := hc
        rcases List.mem_append.1 hc' with hm2 | hm2
        · have := hids c hm2
          omega
        · rw [List.mem_singleton.1 hm2]
      · show db.seq ≤ db.seq + 1
        omega
      · intro i h
        cases h
        exact ⟨rfl, rfl⟩
  | upd j nom prenom t e a =>
    rcases modifier_shape db j nom prenom t e a with ⟨m, hm⟩ | ⟨b, rows, hok, hsub⟩
    · simp only [applyOp, hm]
      exact ⟨⟨h0, hids⟩, le_refl _, fun i h => by cases h⟩
    · simp only [applyOp, hok]
      refine ⟨⟨h0, ?_⟩, le_refl _, fun i h => by cases h⟩
      intro c hc
      obtain ⟨c₀, hc₀, hid⟩ := hsub c hc
      rw [hid]
      exact hids c₀ hc₀
  | del j =>
    rcases supprimer_shape db j with ⟨m, hm⟩ | ⟨b, rows, hok, hsub⟩
    · simp only [applyOp, hm]
      exact ⟨⟨h0, hids⟩, le_refl _, fun i h => by cases h⟩
    · simp only [applyOp, hok]
      exact ⟨⟨h0, fun c hc => hids c (hsub c hc)⟩, le_refl _,
        fun i h => by cases h⟩

/-- Along any run from a well-formed table, the sequence never decreases,
every returned create id strictly exceeds the starting sequence, and the
returned ids are strictly increasing. -/
lemma run_spec : ∀ (ops : List Op) (db : DB), db.Wf →
    db.seq ≤ (run db ops).1.seq ∧
    (∀ i ∈ (run db ops).2, db.seq < i) ∧
    List.Pairwise (fun i j => i < j) (run db ops).2
  | [], db, _ => by simp [run]
  | op :: ops, db, hwf => by
    obtain ⟨hwf', hseq, hret⟩ := applyOp_spec db op hwf
    obtain ⟨ihseq, ihlb, ihpw⟩ := run_spec ops (applyOp db op).1 hwf'
    refine ⟨?_, ?_, ?_⟩
    · exact le_trans hseq ihseq
    · intro i hi
      rw [show (run db (op :: ops)).2 =
        (applyOp db op).2.toList ++ (run (applyOp db op).1 ops).2 from rfl]
        at hi
      rcases List.mem_append.1 hi with hi | hi
      · rw [Option.mem_toList, Option.mem_def] at hi
        have := (hret i hi).1
        omega
      · have h2 := ihlb i hi
        omega
    · rw [show (run db (op :: ops)).2 =
        (applyOp db op).2.toList ++ (run (applyOp db op).1 ops).2 from rfl]
      rw [List.pairwise_append]
      refine ⟨?_, ihpw, ?_⟩
      · cases h : (applyOp db op).2 with
        | none => simp
        | some i => simp
      · intro i hi j hj
        rw [Option.mem_toList, Option.mem_def] at hi
        obtain ⟨hi1, hi2⟩ := hret i hi
        have := ihlb j hj
        omega

/-- C5: in any session of storage operations starting from a fresh
database, the ids returned by the successful creates are all strictly
positive and pairwise strictly increasing in order of creation — so each
create returns an id greater than every previously returned id and never
reuses any previously used id, including ids of deleted records. -/
theorem identifiants_uniques_croissants (ops : List Op) :
    List.Pairwise (fun i j => i < j) (run initDb ops).2 ∧
      ∀ i ∈ (run initDb ops).2, 0 < i := by
  obtain ⟨_, hlb, hpw⟩ := run_spec ops initDb ⟨le_refl 0, by simp [initDb]⟩
  exact ⟨hpw, fun i hi => hlb i hi⟩

/-- Witness for C5: a concrete session (create, delete, create) returns
the ids 1 then 2, and the stated facts hold at it. -/
theorem identifiants_uniques_croissants_temoin :
    (0 : Int) < 1 ∧
      List.Pairwise (fun i j : Int => i < j)
        (run initDb [Op.add "A" "B" none none none, Op.del 1,
          Op.add "C" "D" none none none]).2 :=
  ⟨(identifiants_uniques_croissants [Op.add "A" "B" none none none]).2 1
      (by decide),
   (identifiants_uniques_croissants [Op.add "A" "B" none none none, Op.del 1,
      Op.add "C" "D" none none none]).1⟩

/-! ## C4 — `rechercher_contact` as case-insensitive substring search -/

/-- A wildcard-free pattern followed by a single `%` matches exactly the
strings it is a prefix of. -/
lemma likeMatch_sans_joker_perc : ∀ (q : List Char),
    (∀ c ∈ q, c ≠ '%' ∧ c ≠ '_') →
    ∀ s, likeMatch (q ++ ['%']) s = q.isPrefixOf s
  | [], _, s => by
    have h1 : ([] : List Char) ∈ s.tails := by
      rw [List.mem_tails]
      exact List.nil_suffix
    simp only [List.nil_append, List.isPrefixOf_nil_left]
    show (if '%' = '%' then s.tails.any (fun t => likeMatch [] t) else _) = true
    rw [if_pos rfl]
    rw [List.any_eq_true]
    exact ⟨[], h1, rfl⟩
  | a :: q, hq, s => by
    have ha := hq a (List.mem_cons_self a q)
    have hq' : ∀ x ∈ q, x ≠ '%' ∧ x ≠ '_' :=
      fun x hx => hq x (List.mem_cons_of_mem a hx)
    cases s with
    | nil => simp [likeMatch, ha.1, List.isPrefixOf]
    | cons c s =>
      simp only [List.cons_append, likeMatch, ha.1, ha.2, if_neg,
        List.isPrefixOf_cons₂]
      simp only [ha.1, ha.2, if_false, ite_false]
      congr 1
      exact likeMatch_sans_joker_perc q hq' s

/-- The whole pattern `%q%` built from a wildcard-free `q` matches exactly
the strings containing `q` as a contiguous substring. -/
lemma likeMatch_motif (q : List Char) (hq : ∀ c ∈ q, c ≠ '%' ∧ c ≠ '_')
    (s : List Char) :
    likeMatch ('%' :: (q ++ ['%'])) s = isSubstring q s := by
  show (if '%' = '%' then s.tails.any (fun t => likeMatch (q ++ ['%']) t)
    else _) = _
  rw [if_pos rfl]
  unfold isSubstring
  congr 1
  funext t
  exact likeMatch_sans_joker_perc q hq t

/-- `Char.ofNat` of a small scalar value decodes to itself. -/
lemma char_toNat_ofNat {n : Nat} (h : n < 55296) :
    (Char.ofNat n).toNat = n := by
  have hv : n.isValidChar := Or.inl h
  unfold Char.ofNat
  rw [dif_pos hv]
  rfl

/-- ASCII lowering never produces the wildcard characters `%` and `_`
from non-wildcard characters (lower-case letters sit in 97..122). -/
lemma toLower_ne_joker {c : Char} (hp : c ≠ '%') (hu : c ≠ '_') :
    Char.toLower c ≠ '%' ∧ Char.toLower c ≠ '_' := by
  have hdef : Char.toLower c =
      if c.toNat ≥ 65 ∧ c.toNat ≤ 90 then Char.ofNat (c.toNat + 32) else c :=
    rfl
  by_cases hcase : c.toNat ≥ 65 ∧ c.toNat ≤ 90
  · rw [hdef, if_pos hcase]
    constructor
    · intro he
      have h2 := congrArg Char.toNat he
      rw [char_toNat_ofNat (by omega)] at h2
      have h3 : Char.toNat '%' = 37 := rfl
      rw [h3] at h2
      omega
    · intro he
      have h2 := congrArg Char.toNat he
      rw [char_toNat_ofNat (by omega)] at h2
      have h3 : Char.toNat '_' = 95 := rfl
      rw [h3] at h2
      omega
  · rw [hdef, if_neg hcase]
    exact ⟨hp, hu⟩

/-- Lowering preserves wildcard-freeness. -/
lemma lowerL_sans_joker {l : List Char}
    (h : ∀ c ∈ l, c ≠ '%' ∧ c ≠ '_') :
    ∀ c ∈ lowerL l, c ≠ '%' ∧ c ≠ '_' := by
  intro c hc
  obtain ⟨c₀, hc₀, rfl⟩ := List.mem_map.1 hc
  exact toLower_ne_joker (h c₀ hc₀).1 (h c₀ hc₀).2

/-- `LOWER` of the pattern `%q%` is `%` then `LOWER(q)` then `%`. -/
lemma lowerL_motif (q : List Char) :
    lowerL ('%' :: (q ++ ['%'])) = '%' :: (lowerL q ++ ['%']) := by
  have h : Char.toLower '%' = '%' := rfl
  simp [lowerL, h]

/-- C4 (amended): `rechercher_contact` fails with the validation error on
an empty-after-trim query; for a non-empty query whose trimmed value
contains neither `%` nor `_`, it returns exactly the records for which
the trimmed query is an (ASCII) case-insensitive substring of the last
name, the phone, or the email (logical OR across the three, absent fields
never matching), ordered by (`nom`, `prenom`).  (For queries containing
`%` or `_` the claim fails, see the counterexample: those characters act
as `LIKE` wildcards.) -/
theorem recherche_sous_chaine (db : DB) (critere : String)
    (hjoker : ∀ c ∈ (strTrim critere).data, c ≠ '%' ∧ c ≠ '_') :
    (strTrim critere = "" →
      rechercher_contact db critere =
        .error "Le critère de recherche est obligatoire") ∧
    (strTrim critere ≠ "" →
      rechercher_contact db critere =
        .ok (sortContacts (db.rows.filter (specMatches (strTrim critere)))) ∧
      List.Sorted contactLe
        (sortContacts (db.rows.filter (specMatches (strTrim critere))))) := by
  constructor
  · intro h
    simp [rechercher_contact, h]
  · intro h
    refine ⟨?_, List.sorted_insertionSort _ _⟩
    have hq := lowerL_sans_joker hjoker
    simp only [rechercher_contact, if_neg h]
    congr 1
    unfold sortContacts
    congr 1
    apply List.filter_congr
    intro c _
    cases htel : c.telephone <;> cases hmail : c.email <;>
      simp [fieldLike, specMatches, htel, hmail, lowerL_motif,
        likeMatch_motif _ hq]

/-- Witness for C4 at a concrete table and query. -/
theorem recherche_sous_chaine_temoin :
    rechercher_contact tableRecherche "dur" =
      .ok (sortContacts (tableRecherche.rows.filter
        (specMatches (strTrim "dur")))) ∧
    List.Sorted contactLe (sortContacts (tableRecherche.rows.filter
      (specMatches (strTrim "dur")))) :=
  (recherche_sous_chaine tableRecherche "dur" (by decide)).2 (by decide)

/-- Counterexample to C4 as stated ("for every query string"): on
`tableRecherche` the query `"%"` returns the row although `%` is not a
case-insensitive substring of any of its searched fields. -/
theorem recherche_sous_chaine_contre_exemple :
    rechercher_contact tableRecherche "%" =
      .ok [⟨1, "Durand", "Paul", some "0499", some "paul@ex.fr", none⟩] ∧
    specMatches (strTrim "%")
      ⟨1, "Durand", "Paul", some "0499", some "paul@ex.fr", none⟩ = false := by
  refine ⟨by decide, by decide⟩

/-! ## C7 — the Controller's email regular expression -/

/-- The first element kept by `dropWhile` fails the predicate. -/
lemma dropWhile_head_false {α : Type} (p : α → Bool) :
    ∀ (l : List α) (b : α) (m : List α), l.dropWhile p = b :: m → p b = false
  | [], b, m => by
    intro h
    simp [List.dropWhile] at h
  | a :: l, b, m => by
    intro h
    rw [List.dropWhile_cons] at h
    by_cases hpa : p a = true
    · rw [if_pos hpa] at h
      exact dropWhile_head_false p l b m h
    · rw [if_neg hpa] at h
      cases h
      simpa using hpa

/-- `takeWhile`/`dropWhile` split a list at its first predicate failure. -/
lemma takeWhile_middle {α : Type} (p : α → Bool) :
    ∀ (l₁ : List α) (b : α) (l₂ : List α),
      (∀ a ∈ l₁, p a = true) → p b = false →
      (l₁ ++ b :: l₂).takeWhile p = l₁ ∧ (l₁ ++ b :: l₂).dropWhile p = b :: l₂
  | [], b, l₂ => by
    intro _ hb
    simp [List.takeWhile_cons, List.dropWhile_cons, hb]
  | a :: l₁, b, l₂ => by
    intro h hb
    have ha := h a (List.mem_cons_self a l₁)
    have h' : ∀ x ∈ l₁, p x = true :=
      fun x hx => h x (List.mem_cons_of_mem a hx)
    obtain ⟨ih1, ih2⟩ := takeWhile_middle p l₁ b l₂ h' hb
    constructor
    · rw [List.cons_append, List.takeWhile_cons, if_pos ha, ih1]
    · rw [List.cons_append, List.dropWhile_cons, if_pos ha, ih2]

/-- The anchored matcher accepts exactly the decompositions
`loc ++ "@" ++ d ++ "." ++ t` described by the regular expression
`^[a-zA-Z0-9._%+-]+@[a-zA-Z0-9.-]+\.[a-zA-Z]{2,}$` (the regex's `@` is
necessarily the first `@`, its `\.` the last `.`, since neither occurs in
the relevant character classes). -/
lemma isEmpty_false_iff {α : Type} (l : List α) :
    l.isEmpty = false ↔ l ≠ [] := by
  cases l <;> simp

lemma matchEmailCore_iff (l : List Char) :
    matchEmailCore l = true ↔
      ∃ loc d t : List Char,
        l = loc ++ '@' :: (d ++ '.' :: t) ∧
        loc ≠ [] ∧ loc.all isLocalChar = true ∧
        d ≠ [] ∧ d.all isDomainChar = true ∧
        2 ≤ t.length ∧ t.all Char.isAlpha = true := by
  constructor
  · intro h
    cases hdrop : l.dropWhile (fun c => !(c == '@')) with
    | nil =>
      simp only [matchEmailCore, hdrop] at h
      cases h
    | cons b m =>
      have hb : b = '@' := by
        have := dropWhile_head_false _ l b m hdrop
        simpa using this
      subst hb
      cases hdrop2 : m.reverse.dropWhile (fun c => !(c == '.')) with
      | nil =>
        simp only [matchEmailCore, hdrop, hdrop2] at h
        cases h
      | cons b2 dRev =>
        have hb2 : b2 = '.' := by
          have := dropWhile_head_false _ m.reverse b2 dRev hdrop2
          simpa using this
        subst hb2
        simp only [matchEmailCore, hdrop, hdrop2, Bool.and_eq_true,
          Bool.not_eq_true'] at h
        obtain ⟨⟨⟨⟨⟨hloc1, hloc2⟩, hd1⟩, hd2⟩, ht1⟩, ht2⟩ := h
        have hm : m = dRev.reverse ++ '.' ::
            (m.reverse.takeWhile (fun c => !(c == '.'))).reverse := by
          have h1 : m.reverse =
              m.reverse.takeWhile (fun c => !(c == '.')) ++ ('.' :: dRev) := by
            rw [← hdrop2, List.takeWhile_append_dropWhile]
          have h2 := congrArg List.reverse h1
          rw [List.reverse_reverse, List.reverse_append] at h2
          simpa [List.append_assoc] using h2
        refine ⟨l.takeWhile (fun c => !(c == '@')), dRev.reverse,
          (m.reverse.takeWhile (fun c => !(c == '.'))).reverse,
          ?_, ?_, hloc2, ?_, ?_, ?_, ?_⟩
        · rw [← hm, ← hdrop, List.takeWhile_append_dropWhile]
        · exact (isEmpty_false_iff _).1 hloc1
        · simpa [List.reverse_eq_nil_iff] using (isEmpty_false_iff _).1 hd1
        · simpa [List.all_reverse] using hd2
        · simpa [List.length_reverse, decide_eq_true_eq] using ht1
        · simpa [List.all_reverse] using ht2
  · rintro ⟨loc, d, t, hl, h1, h2, h3, h4, h5, h6⟩
    have hp1 : ∀ a ∈ loc, (fun c => !(c == '@')) a = true := by
      intro a ha
      have hla := List.all_eq_true.1 h2 a ha
      have hne : a ≠ '@' := by
        intro he
        subst he
        simp [isLocalChar] at hla
      simpa using hne
    have hp2 : (fun c => !(c == '@')) '@' = false := by simp
    obtain ⟨htw, hdw⟩ := takeWhile_middle _ loc '@' (d ++ '.' :: t) hp1 hp2
    have hq1 : ∀ a ∈ t.reverse, (fun c => !(c == '.')) a = true := by
      intro a ha
      have hta := List.all_eq_true.1 h6 a (List.mem_reverse.1 ha)
      have hne : a ≠ '.' := by
        intro he
        subst he
        simp [Char.isAlpha, Char.isUpper, Char.isLower] at hta
      simpa using hne
    have hq2 : (fun c => !(c == '.')) '.' = false := by simp
    have hmrev : (d ++ '.' :: t).reverse = t.reverse ++ '.' :: d.reverse := by
      simp [List.reverse_append]
    obtain ⟨htw2, hdw2⟩ := takeWhile_middle _ t.reverse '.' d.reverse hq1 hq2
    simp only [matchEmailCore, hl, htw, hdw, hmrev, htw2, hdw2,
      Bool.and_eq_true, Bool.not_eq_true']
    refine ⟨⟨⟨⟨⟨?_, h2⟩, ?_⟩, ?_⟩, ?_⟩, ?_⟩
    · exact (isEmpty_false_iff _).2 h1
    · exact (isEmpty_false_iff _).2 (by simpa [List.reverse_eq_nil_iff] using h3)
    · simpa [List.all_reverse] using h4
    · simpa [List.length_reverse, decide_eq_true_eq] using h5
    · simpa [List.all_reverse] using h6

/-- The spec's email pattern holds of a string exactly when the anchored
matcher accepts its characters. -/
lemma specEmailOk_iff (s : String) :
    specEmailOk s ↔ matchEmailCore s.data = true :=
  (matchEmailCore_iff s.data).symm

/-- `valider_email` on a non-empty string accepts exactly the spec's
pattern — up to Python's `$` anchor, which also matches just before one
trailing newline. -/
lemma valider_email_iff (s : String) (hs : s ≠ "") :
    valider_email s = true ↔
      (specEmailOk s ∨ ∃ s' : String, s = s' ++ "\n" ∧ specEmailOk s') := by
  unfold valider_email
  rw [if_neg hs, Bool.or_eq_true]
  constructor
  · rintro (h | h)
    · exact Or.inl ((specEmailOk_iff s).2 h)
    · right
      cases hlast : s.data.getLast? with
      | none =>
        rw [hlast] at h
        cases h
      | some c =>
        rw [hlast] at h
        simp only [Bool.and_eq_true, beq_iff_eq] at h
        obtain ⟨rfl, hcore⟩ := h
        refine ⟨⟨s.data.dropLast⟩, ?_, ?_⟩
        · apply string_data_inj
          show s.data = s.data.dropLast ++ '\n' :: []
          have hmem : '\n' ∈ s.data.getLast? := by
            rw [hlast]
            rfl
          have := List.dropLast_append_getLast? '\n' hmem
          exact this.symm
        · exact (specEmailOk_iff _).2 hcore
  · rintro (h | ⟨s', rfl, h⟩)
    · exact Or.inl ((specEmailOk_iff s).1 h)
    · right
      have hdata : (s' ++ "\n").data = s'.data ++ ['\n'] := rfl
      rw [hdata, List.getLast?_concat, List.dropLast_concat]
      simp only [beq_self_eq_true, Bool.true_and]
      exact (specEmailOk_iff s').1 h

/-- C7 (amended): `valider_email` accepts the empty string and
`"jean.dupont@example.com"`, rejects `"nodomain"`, `"a@b"` and `"a@b.c"`;
in general a non-empty email is accepted iff it — or, because Python's
`$` anchor also matches just before a single terminal newline, the email
with one trailing newline removed — matches `localpart@domain.tld` with
localpart one or more of `[A-Za-z0-9._%+-]`, domain one or more of
`[A-Za-z0-9.-]`, and a final segment after the last dot of 2+ alphabetic
characters. -/
theorem validateur_email_regex :
    valider_email "" = true ∧
    valider_email "jean.dupont@example.com" = true ∧
    valider_email "nodomain" = false ∧
    valider_email "a@b" = false ∧
    valider_email "a@b.c" = false ∧
    ∀ s : String, s ≠ "" →
      (valider_email s = true ↔
        (specEmailOk s ∨ ∃ s' : String, s = s' ++ "\n" ∧ specEmailOk s')) :=
  ⟨by decide, by decide, by decide, by decide, by decide, valider_email_iff⟩

/-- Witness for C7's general rule at a concrete non-empty email. -/
theorem validateur_email_regex_temoin :
    valider_email "ab@cd.ef" = true ↔
      (specEmailOk "ab@cd.ef" ∨
        ∃ s' : String, "ab@cd.ef" = s' ++ "\n" ∧ specEmailOk s') :=
  validateur_email_regex.2.2.2.2.2 "ab@cd.ef" (by decide)

/-- Counterexample to C7 as stated: the claim's "accepted iff it matches
`localpart@domain.tld` ..." fails at `"a@bb.cc\n"` — the validator
accepts it (Python's `re.match` with a final `$` also matches just
before a trailing newline) although the string does not satisfy the
spec's pattern (its final segment would contain the newline). -/
theorem validateur_email_contre_exemple :
    valider_email "a@bb.cc\n" = true ∧ ("a@bb.cc\n" : String) ≠ "" ∧
    ¬ specEmailOk "a@bb.cc\n" := by
  refine ⟨by decide, by decide, ?_⟩
  intro h
  have h2 := (specEmailOk_iff "a@bb.cc\n").1 h
  have h3 : matchEmailCore "a@bb.cc\n".data = false := by decide
  rw [h2] at h3
  cases h3

/-- Witness for C10 at a concrete record of the table. -/
theorem recherche_joker_temoin :
    rechercher_contact tableJoker "%" = .ok tableJoker.rows ∧
    specMatches "%"
      ⟨1, "Dupont", "Jean", some "0102030405", some "jean@ex.fr", none⟩ =
        false ∧
    specMatches "_"
      ⟨1, "Dupont", "Jean", some "0102030405", some "jean@ex.fr", none⟩ =
        false :=
  ⟨recherche_joker.1,
   (recherche_joker.2.2
     ⟨1, "Dupont", "Jean", some "0102030405", some "jean@ex.fr", none⟩
     (by decide)).1,
   (recherche_joker.2.2
     ⟨1, "Dupont", "Jean", some "0102030405", some "jean@ex.fr", none⟩
     (by decide)).2⟩
